import Mathlib

/-!
Shallow embedding of the ColorHunter palette-extraction pipeline
(`src/ColorHunter.py`) and verification of its specification claims.

The embedded pieces are:
* `sort_colors` (source lines 149-181): partition of a color list into
  red/green/blue/rest buckets by comparing each channel against the
  channel maximum in the fixed order R, G, B, followed by a stable sort
  of each bucket by BT.601 luminance.  Python's `sorted` is a stable
  sort and is embedded as `List.insertionSort`, which Mathlib proves
  stable.  The sort key appears twice: `luminance` is the exact rational
  value of the BT.601 expression (sufficient for the bucket-structure
  and idempotence claims, which do not depend on how key ties fall), and
  `floatLuminance` is the key CPython actually computes — the same
  expression evaluated in IEEE-754 binary64, modelled by `roundDouble`
  (round-to-nearest, ties-to-even, 53 significant bits) applied to the
  decimal constants and to every multiplication and addition.  The two
  keys order colors differently on exact-luminance ties whose double
  keys differ, which is what the stability claim C2 turns on.
* `centerize_histogram` (lines 133-147): `np.histogram` of the label
  array over `len(np.unique(labels)) + 1` bin edges, normalized by the
  total count.
* `extract_colors` (lines 110-131): unique-row counting
  (`np.unique(image, axis=0)` on the 3-D image array counts distinct
  image ROWS), cluster-count selection, the external k-means call
  (abstracted as a function parameter, since sklearn is not part of
  this repository), histogram weighting, channel truncation via
  Python's `int()`, and the final sort.

Machine floats are embedded as exact rationals; the Python `int()`
conversion truncates toward zero and is embedded as `pyInt`.
-/

namespace ColorHunter

open List

/-- An RGB color with integer channels, as produced by `int()` conversion
of cluster-center channels at source line 129. -/
structure Color where
  r : ℤ
  g : ℤ
  b : ℤ
deriving DecidableEq, Repr

/-- A real-valued cluster centroid (3 channel means), embedded with exact
rationals. -/
structure Centroid where
  r : ℚ
  g : ℚ
  b : ℚ
deriving DecidableEq, Repr

/-- Result of the external k-means clusterer: the list of `K` cluster
centers (`clt.cluster_centers_`) and the per-pixel labels (`clt.labels_`). -/
structure ClusterResult where
  centers : List Centroid
  labels : List ℕ
deriving DecidableEq, Repr

/-- Source line 167: `max_color = max(*color)`, the maximum of the three
channels. -/
def maxChannel (c : Color) : ℤ := max c.r (max c.g c.b)

/-- Source line 168: the first branch of the cascade, `color[0] == max_color`. -/
def isRed (c : Color) : Bool := c.r == maxChannel c

/-- Source line 170: `elif color[1] == max_color`, reached only when the red
test failed. -/
def isGreen (c : Color) : Bool := !isRed c && (c.g == maxChannel c)

/-- Source line 172: `elif color[2] == max_color`, reached only when the red
and green tests failed. -/
def isBlue (c : Color) : Bool :=
  !isRed c && !(c.g == maxChannel c) && (c.b == maxChannel c)

/-- Source line 174: the `else` branch of the cascade. -/
def isRest (c : Color) : Bool :=
  !isRed c && !(c.g == maxChannel c) && !(c.b == maxChannel c)

/-- Source lines 159-160: `luminance(color)`, the BT.601 luma
`0.299*R + 0.587*G + 0.114*B`, as an exact rational.  The program computes
this key in IEEE-754 binary64 — see `floatLuminance` for the faithful key
model; the exact key agrees with the claims C1 and C7 prove, which do not
depend on how key ties are ordered. -/
def luminance (c : Color) : ℚ :=
  0.299 * (c.r : ℚ) + 0.587 * (c.g : ℚ) + 0.114 * (c.b : ℚ)

/-- Comparison by the exact rational luma; `floatLumLE` is the comparison
the program's `sorted(..., key=luminance)` actually performs, and the two
differ on exact-luminance ties whose binary64 keys differ. -/
def lumLE (a b : Color) : Prop := luminance a ≤ luminance b

instance : DecidableRel lumLE := fun a b =>
  decidable_of_iff
    (299 * a.r + 587 * a.g + 114 * a.b ≤ 299 * b.r + 587 * b.g + 114 * b.b) (by
      have key : ∀ c : Color, luminance c =
          ((299 * c.r + 587 * c.g + 114 * c.b : ℤ) : ℚ) / 1000 := by
        intro c
        unfold luminance
        push_cast
        norm_num
        ring
      unfold lumLE
      rw [key a, key b, div_le_div_iff_of_pos_right (by norm_num : (0 : ℚ) < 1000)]
      exact Int.cast_le.symm)

instance : IsTotal Color lumLE := ⟨fun a b => le_total (luminance a) (luminance b)⟩

instance : IsTrans Color lumLE := ⟨fun _ _ _ hab hbc => le_trans hab hbc⟩

/-- Source lines 166-169 and 176: the red bucket of `sort_colors`, stably
sorted by luminance. -/
def redsOf (l : List Color) : List Color :=
  List.insertionSort lumLE (l.filter isRed)

/-- Source lines 170-171 and 177: the green bucket, stably sorted by
luminance. -/
def greensOf (l : List Color) : List Color :=
  List.insertionSort lumLE (l.filter isGreen)

/-- Source lines 172-173 and 178: the blue bucket, stably sorted by
luminance. -/
def bluesOf (l : List Color) : List Color :=
  List.insertionSort lumLE (l.filter isBlue)

/-- Source lines 174-175 and 179: the rest bucket, stably sorted by
luminance. -/
def restsOf (l : List Color) : List Color :=
  List.insertionSort lumLE (l.filter isRest)

/-- Source lines 149-181: `sort_colors`, returning
`[*reds, *greens, *blues, *rests]`. -/
def sort_colors (l : List Color) : List Color :=
  redsOf l ++ greensOf l ++ bluesOf l ++ restsOf l

/-- Round a rational to the nearest integer, ties to even — the rounding
step of IEEE-754 binary64 arithmetic. -/
def roundEven (x : ℚ) : ℤ :=
  if x - ⌊x⌋ < 1 / 2 then ⌊x⌋
  else if 1 / 2 < x - ⌊x⌋ then ⌊x⌋ + 1
  else if ⌊x⌋ % 2 = 0 then ⌊x⌋ else ⌊x⌋ + 1

/-- Round a rational to the nearest IEEE-754 binary64 value: 53 significant
bits at the exponent of the argument, round-to-nearest, ties-to-even.
Covers the normal range, which is all this pipeline's values occupy. -/
def roundDouble (q : ℚ) : ℚ :=
  if q = 0 then 0
  else ((roundEven (q * 2 ^ ((52 : ℤ) - Int.log 2 |q|)) : ℤ) : ℚ) *
    2 ^ (Int.log 2 |q| - 52)

/-- Source line 160 as CPython evaluates it: the decimal constants `0.299`,
`0.587`, `0.114` are binary64 doubles, the integer channels convert exactly,
and every multiplication and addition rounds to binary64, left to right:
`(0.299*R + 0.587*G) + 0.114*B`. -/
def floatLuminance (c : Color) : ℚ :=
  roundDouble (roundDouble (roundDouble (roundDouble 0.299 * (c.r : ℚ)) +
    roundDouble (roundDouble 0.587 * (c.g : ℚ))) +
    roundDouble (roundDouble 0.114 * (c.b : ℚ)))

/-- The comparison the program's `sorted(..., key=luminance)` performs:
ordering by the computed binary64 key. -/
def floatLumLE (a b : Color) : Prop := floatLuminance a ≤ floatLuminance b

instance : DecidableRel floatLumLE := fun a b =>
  inferInstanceAs (Decidable (floatLuminance a ≤ floatLuminance b))

instance : IsTotal Color floatLumLE :=
  ⟨fun a b => le_total (floatLuminance a) (floatLuminance b)⟩

instance : IsTrans Color floatLumLE := ⟨fun _ _ _ hab hbc => le_trans hab hbc⟩

/-- The red bucket sorted by the program's actual binary64 key (source
lines 166-169 and 176). -/
def pyRedsOf (l : List Color) : List Color :=
  List.insertionSort floatLumLE (l.filter isRed)

/-- The green bucket sorted by the program's actual binary64 key (source
lines 170-171 and 177). -/
def pyGreensOf (l : List Color) : List Color :=
  List.insertionSort floatLumLE (l.filter isGreen)

/-- The blue bucket sorted by the program's actual binary64 key (source
lines 172-173 and 178). -/
def pyBluesOf (l : List Color) : List Color :=
  List.insertionSort floatLumLE (l.filter isBlue)

/-- The rest bucket sorted by the program's actual binary64 key (source
lines 174-175 and 179). -/
def pyRestsOf (l : List Color) : List Color :=
  List.insertionSort floatLumLE (l.filter isRest)

/-- Source line 122-123: `clusters_num = 5 + (len(unique_colors) // 6)` then
`5 if clusters_num < 2 else 24 if clusters_num > 24 else clusters_num`. -/
def clustersNum (u : ℕ) : ℕ :=
  let raw := 5 + u / 6
  if raw < 2 then 5 else if raw > 24 then 24 else raw

/-- Source line 129 applies Python `int()` to each real-valued centroid
channel; `int()` truncates toward zero. -/
def pyInt (q : ℚ) : ℤ := if 0 ≤ q then ⌊q⌋ else ⌈q⌉

/-- Source line 129: `[int(c) for c in color[1]]`, converting one centroid to
an integer color channel-wise. -/
def pyColor (ctr : Centroid) : Color := ⟨pyInt ctr.r, pyInt ctr.g, pyInt ctr.b⟩

/-- Modelled from the spec's words for comparison (C8): channels rounded to
the nearest integer, channels independently. -/
def specRoundColor (ctr : Centroid) : Color := ⟨round ctr.r, round ctr.g, round ctr.b⟩

/-- Source line 143: `len(np.unique(clt.labels_))`, the number of distinct
label values. -/
def numDistinct (labels : List ℕ) : ℕ := labels.dedup.length

/-- Source lines 143-144: `np.histogram(clt.labels_, bins=np.arange(0, L+1))`
with `L = len(np.unique(labels))`.  The `L+1` bin edges `0, 1, ..., L` give
`L` bins; bin `i < L-1` is the half-open interval `[i, i+1)`, the last bin is
the closed interval `[L-1, L]`, and values above `L` fall in no bin. -/
def histCounts (labels : List ℕ) : List ℕ :=
  let L := numDistinct labels
  (List.range L).map fun i =>
    if i + 1 = L then labels.countP (fun x => x == i || x == i + 1)
    else labels.count i

/-- Source lines 133-147: `centerize_histogram`, the bin counts normalized by
their total (`hist /= hist.sum()`), embedded with exact rationals. -/
def centerize_histogram (labels : List ℕ) : List ℚ :=
  let counts := histCounts labels
  counts.map fun (k : ℕ) => (k : ℚ) / (counts.sum : ℚ)

/-- Source line 120: `len(np.unique(image, axis=0))`.  On the 3-D image array
of shape `(H, W, 3)`, `axis=0` counts distinct image ROWS (distinct
`(W, 3)` slices), not distinct pixel colors. -/
def uniqueRows (image : List (List Color)) : ℕ := image.dedup.length

/-- Source lines 120-123: the cluster count that `extract_colors` passes to
`KMeans(n_clusters=...)`, computed from the unique-row count. -/
def requestedK (image : List (List Color)) : ℕ := clustersNum (uniqueRows image)

/-- The count of distinct pixel colors of an image (the spec's `U`), for
comparison with `uniqueRows` (C3). -/
def distinctColors (image : List (List Color)) : ℕ := image.flatten.dedup.length

/-- Source lines 110-131: `extract_colors`.  The external sklearn `KMeans`
clusterer is not part of this repository, so it is a function parameter
returning either a raised exception (`Except.error`, of an arbitrary
exception type `ε`) or the fitted centers and labels.  The image is
flattened to the pixel list (`image.reshape((H*W, 3))`), the clusterer is
called with `requestedK` clusters, the histogram weights are zipped
positionally with the centers, each paired center is truncated to an
integer color, and the result is sorted.  The source has no
`try`/`except`: a clusterer exception propagates unchanged. -/
def extract_colors {ε : Type} (kmeans : List Color → ℕ → Except ε ClusterResult)
    (image : List (List Color)) : Except ε (List Color) :=
  match kmeans image.flatten (requestedK image) with
  | .error e => .error e
  | .ok clt =>
    let hist := centerize_histogram clt.labels
    let colorHistogram := (hist.zip clt.centers).map fun p => pyColor p.2
    .ok (sort_colors colorHistogram)

/-- A one-row image holding six distinct colors (C3's failing input). -/
def rowImage : List (List Color) :=
  [[⟨0, 0, 0⟩, ⟨1, 1, 1⟩, ⟨2, 2, 2⟩, ⟨3, 3, 3⟩, ⟨4, 4, 4⟩, ⟨5, 5, 5⟩]]

/-- The same six pixels arranged as six one-pixel rows. -/
def colImage : List (List Color) :=
  [[⟨0, 0, 0⟩], [⟨1, 1, 1⟩], [⟨2, 2, 2⟩], [⟨3, 3, 3⟩], [⟨4, 4, 4⟩], [⟨5, 5, 5⟩]]

/-- The solid-color 5-pixel image of the spec's scenario (C4). -/
def solidImage : List (List Color) := [List.replicate 5 ⟨200, 100, 50⟩]

/-- A clustering result consistent with k-means on `solidImage` with `K = 5`:
five coincident centers, every pixel assigned label 0. -/
def solidKMeans : List Color → ℕ → Except ℕ ClusterResult := fun _ _ =>
  .ok ⟨List.replicate 5 ⟨200, 100, 50⟩, List.replicate 5 0⟩

/-- A clusterer returning a center with fractional channel `100.7` (C8). -/
def fracKMeans : List Color → ℕ → Except ℕ ClusterResult := fun _ _ =>
  .ok ⟨[⟨200, 100.7, 50⟩], [0]⟩

/-- A clusterer that raises, standing for sklearn's `ValueError` on an empty
sample array (exception modelled as error code 0). -/
def failKMeans : List Color → ℕ → Except ℕ ClusterResult := fun _ _ => .error 0

/-- A clusterer returning five centers but labels using only clusters 0 and 1
(three empty clusters), for C10. -/
def dropKMeans : List Color → ℕ → Except ℕ ClusterResult := fun _ _ =>
  .ok ⟨[⟨10, 0, 0⟩, ⟨0, 10, 0⟩, ⟨0, 0, 10⟩, ⟨1, 2, 3⟩, ⟨9, 9, 9⟩], [0, 0, 1]⟩

end ColorHunter

namespace ColorHunter

open List

theorem maxChannel_eq_some_channel (c : Color) :
    maxChannel c = c.r ∨ maxChannel c = c.g ∨ maxChannel c = c.b := by
  unfold maxChannel
  rcases max_choice c.r (max c.g c.b) with h | h
  · exact Or.inl h
  · rcases max_choice c.g c.b with h' | h'
    · exact Or.inr (Or.inl (h.trans h'))
    · exact Or.inr (Or.inr (h.trans h'))

theorem isRest_eq_false (c : Color) : isRest c = false := by
  unfold isRest isRed
  rcases maxChannel_eq_some_channel c with h | h | h <;> simp [h]

theorem filter_buckets_perm (l : List Color) :
    l.filter isRed ++ (l.filter isGreen ++ (l.filter isBlue ++ l.filter isRest)) ~ l := by
  induction l with
  | nil => simp
  | cons c l ih =>
    by_cases hr : isRed c
    · simp only [List.filter_cons, hr, isGreen, isBlue, isRest, Bool.not_true,
        Bool.false_and, if_true, if_false, List.cons_append]
      exact ih.cons c
    · rw [Bool.not_eq_true] at hr
      by_cases hg : (c.g == maxChannel c) = true
      · have hG : isGreen c = true := by simp [isGreen, hr, hg]
        have hB : isBlue c = false := by simp [isBlue, hr, hg]
        have hRst : isRest c = false := isRest_eq_false c
        simp only [List.filter_cons, hr, hG, hB, hRst, if_true, if_false,
          Bool.false_eq_true, List.cons_append]
        calc l.filter isRed ++ (c :: (l.filter isGreen ++ (l.filter isBlue ++ l.filter isRest)))
            ~ c :: (l.filter isRed ++ (l.filter isGreen ++ (l.filter isBlue ++ l.filter isRest))) :=
              List.perm_middle
          _ ~ c :: l := ih.cons c
      · by_cases hb : (c.b == maxChannel c) = true
        · have hG : isGreen c = false := by simp [isGreen, hg]
          have hB : isBlue c = true := by simp [isBlue, hr, hg, hb]
          have hRst : isRest c = false := isRest_eq_false c
          simp only [List.filter_cons, hr, hG, hB, hRst, if_true, if_false,
            Bool.false_eq_true, List.cons_append]
          calc l.filter isRed ++ (l.filter isGreen ++ (c :: (l.filter isBlue ++ l.filter isRest)))
              ~ l.filter isRed ++ (c :: (l.filter isGreen ++ (l.filter isBlue ++ l.filter isRest))) :=
                List.Perm.append_left _ List.perm_middle
            _ ~ c :: (l.filter isRed ++ (l.filter isGreen ++ (l.filter isBlue ++ l.filter isRest))) :=
                List.perm_middle
            _ ~ c :: l := ih.cons c
        · exfalso
          rcases maxChannel_eq_some_channel c with h | h | h
          · have hred : isRed c = true := by simp [isRed, h]
            simp [hred] at hr
          · exact hg (by simp [h])
          · exact hb (by simp [h])

theorem sort_colors_perm (l : List Color) : sort_colors l ~ l := by
  unfold sort_colors redsOf greensOf bluesOf restsOf
  calc List.insertionSort lumLE (l.filter isRed) ++ List.insertionSort lumLE (l.filter isGreen) ++
        List.insertionSort lumLE (l.filter isBlue) ++ List.insertionSort lumLE (l.filter isRest)
      ~ l.filter isRed ++ (l.filter isGreen ++ (l.filter isBlue ++ l.filter isRest)) := by
        simp only [List.append_assoc]
        exact List.Perm.append (List.perm_insertionSort _ _)
          (List.Perm.append (List.perm_insertionSort _ _)
            (List.Perm.append (List.perm_insertionSort _ _) (List.perm_insertionSort _ _)))
    _ ~ l := filter_buckets_perm l

theorem mem_redsOf_spec {l : List Color} {c : Color} (h : c ∈ redsOf l) :
    c.g ≤ c.r ∧ c.b ≤ c.r := by
  rw [redsOf, List.mem_insertionSort] at h
  have hc : isRed c = true := List.of_mem_filter h
  rw [isRed, beq_iff_eq] at hc
  constructor
  · calc c.g ≤ max c.g c.b := le_max_left _ _
      _ ≤ max c.r (max c.g c.b) := le_max_right _ _
      _ = maxChannel c := rfl
      _ = c.r := hc.symm
  · calc c.b ≤ max c.g c.b := le_max_right _ _
      _ ≤ max c.r (max c.g c.b) := le_max_right _ _
      _ = maxChannel c := rfl
      _ = c.r := hc.symm

theorem mem_greensOf_spec {l : List Color} {c : Color} (h : c ∈ greensOf l) :
    c.b ≤ c.g ∧ c.r < c.g := by
  rw [greensOf, List.mem_insertionSort] at h
  have hc : isGreen c = true := List.of_mem_filter h
  rw [isGreen, Bool.and_eq_true, Bool.not_eq_true', isRed, beq_eq_false_iff_ne,
    beq_iff_eq] at hc
  obtain ⟨hr, hg⟩ := hc
  have hbg : c.b ≤ maxChannel c := by
    calc c.b ≤ max c.g c.b := le_max_right _ _
      _ ≤ max c.r (max c.g c.b) := le_max_right _ _
  have hrle : c.r ≤ maxChannel c := le_max_left _ _
  exact ⟨hg ▸ hbg, hg ▸ lt_of_le_of_ne hrle hr⟩

theorem mem_bluesOf_spec {l : List Color} {c : Color} (h : c ∈ bluesOf l) :
    c.r < c.b ∧ c.g < c.b := by
  rw [bluesOf, List.mem_insertionSort] at h
  have hc : isBlue c = true := List.of_mem_filter h
  rw [isBlue, Bool.and_eq_true, Bool.and_eq_true, Bool.not_eq_true', Bool.not_eq_true',
    isRed, beq_eq_false_iff_ne, beq_eq_false_iff_ne, beq_iff_eq] at hc
  obtain ⟨⟨hr, hg⟩, hb⟩ := hc
  have hrle : c.r ≤ maxChannel c := le_max_left _ _
  have hgle : c.g ≤ maxChannel c := by
    calc c.g ≤ max c.g c.b := le_max_left _ _
      _ ≤ max c.r (max c.g c.b) := le_max_right _ _
  exact ⟨hb ▸ lt_of_le_of_ne hrle hr, hb ▸ lt_of_le_of_ne hgle hg⟩

theorem restsOf_eq_nil (l : List Color) : restsOf l = [] := by
  rw [restsOf, List.filter_eq_nil_iff.mpr (fun c _ => by simp [isRest_eq_false c])]
  rfl

/-- C1: `sort_colors` returns a permutation of its input, arranged as the
concatenation of the four buckets reds, greens, blues, rests in that fixed
order; every red-segment color satisfies `R ≥ G` and `R ≥ B`, every
green-segment color satisfies `G ≥ B` and `G > R`, every blue-segment color
satisfies `B > R` and `B > G`, and the rests bucket is always empty. -/
theorem sort_colors_partition_correct (l : List Color) :
    sort_colors l ~ l ∧
    sort_colors l = redsOf l ++ greensOf l ++ bluesOf l ++ restsOf l ∧
    (∀ c ∈ redsOf l, c.g ≤ c.r ∧ c.b ≤ c.r) ∧
    (∀ c ∈ greensOf l, c.b ≤ c.g ∧ c.r < c.g) ∧
    (∀ c ∈ bluesOf l, c.r < c.b ∧ c.g < c.b) ∧
    restsOf l = [] :=
  ⟨sort_colors_perm l, rfl, fun _ hc => mem_redsOf_spec hc,
    fun _ hc => mem_greensOf_spec hc, fun _ hc => mem_bluesOf_spec hc,
    restsOf_eq_nil l⟩

/-- Witness for C1 at the concrete input `[(0,0,1), (3,1,2)]`: the output is
a permutation of the input and the red-segment member `(3,1,2)` satisfies the
red-dominance inequalities. -/
theorem sort_colors_partition_correct_witness :
    sort_colors [⟨0, 0, 1⟩, ⟨3, 1, 2⟩] ~ [⟨0, 0, 1⟩, ⟨3, 1, 2⟩] ∧
    ((⟨3, 1, 2⟩ : Color).g ≤ (⟨3, 1, 2⟩ : Color).r ∧
      (⟨3, 1, 2⟩ : Color).b ≤ (⟨3, 1, 2⟩ : Color).r) :=
  ⟨(sort_colors_partition_correct [⟨0, 0, 1⟩, ⟨3, 1, 2⟩]).1,
    (sort_colors_partition_correct [⟨0, 0, 1⟩, ⟨3, 1, 2⟩]).2.2.1 ⟨3, 1, 2⟩ (by decide)⟩

theorem int_log_eq (q : ℚ) (e : ℤ) (hq : 0 < q)
    (hlo : (2 : ℚ) ^ e ≤ q) (hhi : q < (2 : ℚ) ^ (e + 1)) : Int.log 2 q = e := by
  have h1 : e ≤ Int.log 2 q := by
    rw [← Int.zpow_le_iff_le_log (by norm_num) hq]
    exact_mod_cast hlo
  have h2 : Int.log 2 q < e + 1 := by
    rw [← Int.lt_zpow_iff_log_lt (by norm_num) hq]
    exact_mod_cast hhi
  omega

theorem roundEven_eq_of_near (x : ℚ) (m : ℤ) (h : |x - m| < 1 / 2) :
    roundEven x = m := by
  rw [abs_sub_lt_iff] at h
  obtain ⟨h1, h2⟩ := h
  unfold roundEven
  by_cases hxm : (m : ℚ) ≤ x
  · have hf : ⌊x⌋ = m := by
      rw [Int.floor_eq_iff]
      refine ⟨hxm, ?_⟩
      linarith
    rw [hf, if_pos (by linarith)]
  · have hf : ⌊x⌋ = m - 1 := by
      rw [Int.floor_eq_iff]
      push_cast
      constructor
      · linarith
      · linarith
    rw [hf]
    rw [if_neg (by push_cast; linarith), if_pos (by push_cast; linarith)]
    omega

theorem roundEven_tie (x : ℚ) (m : ℤ) (hm : m % 2 = 0)
    (hx : x = (m : ℚ) + 1 / 2 ∨ x = (m : ℚ) - 1 / 2) : roundEven x = m := by
  unfold roundEven
  rcases hx with hx | hx
  · have hf : ⌊x⌋ = m := by
      rw [Int.floor_eq_iff, hx]
      constructor
      · linarith
      · linarith
    rw [hf, if_neg (by rw [hx]; linarith),
      if_neg (by rw [hx]; linarith), if_pos hm]
  · have hf : ⌊x⌋ = m - 1 := by
      rw [Int.floor_eq_iff, hx]
      push_cast
      constructor
      · linarith
      · linarith
    rw [hf, if_neg (by rw [hx]; push_cast; linarith),
      if_neg (by rw [hx]; push_cast; linarith),
      if_neg (by omega)]
    omega

theorem roundDouble_eq (q : ℚ) (e m : ℤ) (hq : 0 < q)
    (hlo : (2 : ℚ) ^ e ≤ q) (hhi : q < (2 : ℚ) ^ (e + 1))
    (hm : roundEven (q * 2 ^ ((52 : ℤ) - e)) = m) :
    roundDouble q = (m : ℚ) * 2 ^ (e - (52 : ℤ)) := by
  unfold roundDouble
  rw [if_neg hq.ne', abs_of_pos hq, int_log_eq q e hq hlo hhi, hm]

theorem fl_c299 : roundDouble (0.299 : ℚ) = 5386305154335113 / 2 ^ 54 := by
  rw [show (0.299 : ℚ) = 299 / 1000 from by norm_num,
    roundDouble_eq (299 / 1000) (-2) 5386305154335113 (by norm_num) (by norm_num)
      (by norm_num)
      (roundEven_eq_of_near _ _
        (by rw [abs_sub_lt_iff]; exact ⟨by norm_num, by norm_num⟩))]
  norm_num

theorem fl_c587 : roundDouble (0.587 : ℚ) = 5287225962532962 / 2 ^ 53 := by
  rw [show (0.587 : ℚ) = 587 / 1000 from by norm_num,
    roundDouble_eq (587 / 1000) (-1) 5287225962532962 (by norm_num) (by norm_num)
      (by norm_num)
      (roundEven_eq_of_near _ _
        (by rw [abs_sub_lt_iff]; exact ⟨by norm_num, by norm_num⟩))]
  norm_num

theorem fl_c114 : roundDouble (0.114 : ℚ) = 8214565720323785 / 2 ^ 56 := by
  rw [show (0.114 : ℚ) = 57 / 500 from by norm_num,
    roundDouble_eq (57 / 500) (-4) 8214565720323785 (by norm_num) (by norm_num)
      (by norm_num)
      (roundEven_eq_of_near _ _
        (by rw [abs_sub_lt_iff]; exact ⟨by norm_num, by norm_num⟩))]
  norm_num

theorem fl_p1A : roundDouble (134657628858377825 / 2 ^ 52 : ℚ) =
    8416101803648614 / 2 ^ 48 := by
  rw [roundDouble_eq (134657628858377825 / 2 ^ 52) 4 8416101803648614 (by norm_num)
      (by norm_num) (by norm_num)
      (roundEven_eq_of_near _ _
        (by rw [abs_sub_lt_iff]; exact ⟨by norm_num, by norm_num⟩))]
  norm_num

theorem fl_p2A : roundDouble (66090324531662025 / 2 ^ 51 : ℚ) =
    8261290566457753 / 2 ^ 48 := by
  rw [roundDouble_eq (66090324531662025 / 2 ^ 51) 4 8261290566457753 (by norm_num)
      (by norm_num) (by norm_num)
      (roundEven_eq_of_near _ _
        (by rw [abs_sub_lt_iff]; exact ⟨by norm_num, by norm_num⟩))]
  norm_num

theorem fl_p3A : roundDouble (41072828601618925 / 2 ^ 54 : ℚ) =
    5134103575202366 / 2 ^ 51 := by
  rw [roundDouble_eq (41072828601618925 / 2 ^ 54) 1 5134103575202366 (by norm_num)
      (by norm_num) (by norm_num)
      (roundEven_eq_of_near _ _
        (by rw [abs_sub_lt_iff]; exact ⟨by norm_num, by norm_num⟩))]
  norm_num

theorem fl_s1A : roundDouble (16677392370106367 / 2 ^ 48 : ℚ) =
    8338696185053184 / 2 ^ 47 := by
  rw [roundDouble_eq (16677392370106367 / 2 ^ 48) 5 8338696185053184 (by norm_num)
      (by norm_num) (by norm_num)
      (roundEven_tie _ _ (by norm_num) (Or.inr (by norm_num)))]
  norm_num

theorem fl_keyA : roundDouble (69276621268026655 / 2 ^ 50 : ℚ) =
    8659577658503332 / 2 ^ 47 := by
  rw [roundDouble_eq (69276621268026655 / 2 ^ 50) 5 8659577658503332 (by norm_num)
      (by norm_num) (by norm_num)
      (roundEven_eq_of_near _ _
        (by rw [abs_sub_lt_iff]; exact ⟨by norm_num, by norm_num⟩))]
  norm_num

theorem fl_p1B : roundDouble (479381158735825057 / 2 ^ 54 : ℚ) =
    7490330605247267 / 2 ^ 48 := by
  rw [roundDouble_eq (479381158735825057 / 2 ^ 54) 4 7490330605247267 (by norm_num)
      (by norm_num) (by norm_num)
      (roundEven_eq_of_near _ _
        (by rw [abs_sub_lt_iff]; exact ⟨by norm_num, by norm_num⟩))]
  norm_num

theorem fl_p2B : roundDouble (129537036082057569 / 2 ^ 52 : ℚ) =
    8096064755128598 / 2 ^ 48 := by
  rw [roundDouble_eq (129537036082057569 / 2 ^ 52) 4 8096064755128598 (by norm_num)
      (by norm_num) (by norm_num)
      (roundEven_eq_of_near _ _
        (by rw [abs_sub_lt_iff]; exact ⟨by norm_num, by norm_num⟩))]
  norm_num

theorem fl_p3B : roundDouble (221793274448742195 / 2 ^ 55 : ℚ) =
    6931039826523194 / 2 ^ 50 := by
  rw [roundDouble_eq (221793274448742195 / 2 ^ 55) 2 6931039826523194 (by norm_num)
      (by norm_num) (by norm_num)
      (roundEven_eq_of_near _ _
        (by rw [abs_sub_lt_iff]; exact ⟨by norm_num, by norm_num⟩))]
  norm_num

theorem fl_s1B : roundDouble (15586395360375865 / 2 ^ 48 : ℚ) =
    7793197680187932 / 2 ^ 47 := by
  rw [roundDouble_eq (15586395360375865 / 2 ^ 48) 5 7793197680187932 (by norm_num)
      (by norm_num) (by norm_num)
      (roundEven_tie _ _ (by norm_num) (Or.inl (by norm_num)))]
  norm_num

theorem fl_keyB : roundDouble (34638310634013325 / 2 ^ 49 : ℚ) =
    8659577658503331 / 2 ^ 47 := by
  rw [roundDouble_eq (34638310634013325 / 2 ^ 49) 5 8659577658503331 (by norm_num)
      (by norm_num) (by norm_num)
      (roundEven_eq_of_near _ _
        (by rw [abs_sub_lt_iff]; exact ⟨by norm_num, by norm_num⟩))]
  norm_num

theorem floatLuminance_A :
    floatLuminance ⟨100, 50, 20⟩ = 8659577658503332 / 2 ^ 47 := by
  show roundDouble (roundDouble (roundDouble (roundDouble 0.299 * ((100 : ℤ) : ℚ)) +
      roundDouble (roundDouble 0.587 * ((50 : ℤ) : ℚ))) +
      roundDouble (roundDouble 0.114 * ((20 : ℤ) : ℚ))) = _
  rw [fl_c299, fl_c587, fl_c114,
    show (5386305154335113 / 2 ^ 54 * ((100 : ℤ) : ℚ) : ℚ) =
      134657628858377825 / 2 ^ 52 from by push_cast; norm_num,
    show (5287225962532962 / 2 ^ 53 * ((50 : ℤ) : ℚ) : ℚ) =
      66090324531662025 / 2 ^ 51 from by push_cast; norm_num,
    show (8214565720323785 / 2 ^ 56 * ((20 : ℤ) : ℚ) : ℚ) =
      41072828601618925 / 2 ^ 54 from by push_cast; norm_num,
    fl_p1A, fl_p2A, fl_p3A,
    show (8416101803648614 / 2 ^ 48 + 8261290566457753 / 2 ^ 48 : ℚ) =
      16677392370106367 / 2 ^ 48 from by norm_num,
    fl_s1A,
    show (8338696185053184 / 2 ^ 47 + 5134103575202366 / 2 ^ 51 : ℚ) =
      69276621268026655 / 2 ^ 50 from by norm_num,
    fl_keyA]

theorem floatLuminance_B :
    floatLuminance ⟨89, 49, 54⟩ = 8659577658503331 / 2 ^ 47 := by
  show roundDouble (roundDouble (roundDouble (roundDouble 0.299 * ((89 : ℤ) : ℚ)) +
      roundDouble (roundDouble 0.587 * ((49 : ℤ) : ℚ))) +
      roundDouble (roundDouble 0.114 * ((54 : ℤ) : ℚ))) = _
  rw [fl_c299, fl_c587, fl_c114,
    show (5386305154335113 / 2 ^ 54 * ((89 : ℤ) : ℚ) : ℚ) =
      479381158735825057 / 2 ^ 54 from by push_cast; norm_num,
    show (5287225962532962 / 2 ^ 53 * ((49 : ℤ) : ℚ) : ℚ) =
      129537036082057569 / 2 ^ 52 from by push_cast; norm_num,
    show (8214565720323785 / 2 ^ 56 * ((54 : ℤ) : ℚ) : ℚ) =
      221793274448742195 / 2 ^ 55 from by push_cast; norm_num,
    fl_p1B, fl_p2B, fl_p3B,
    show (7490330605247267 / 2 ^ 48 + 8096064755128598 / 2 ^ 48 : ℚ) =
      15586395360375865 / 2 ^ 48 from by norm_num,
    fl_s1B,
    show (7793197680187932 / 2 ^ 47 + 6931039826523194 / 2 ^ 50 : ℚ) =
      34638310634013325 / 2 ^ 49 from by norm_num,
    fl_keyB]

/-- C2 amended: within each bucket the output is sorted by the program's
computed sort key — the binary64 evaluation of `0.299*R + 0.587*G + 0.114*B`
— and the within-bucket ordering is stable with respect to that computed
key: two same-bucket colors with equal computed key (in particular,
identical colors) keep their relative input order.  Exact-luminance ties
whose binary64 keys differ are ordered by the keys, not by input position. -/
theorem sort_colors_buckets_float_sorted_stable (l : List Color) :
    ((pyRedsOf l).Sorted floatLumLE ∧ (pyGreensOf l).Sorted floatLumLE ∧
      (pyBluesOf l).Sorted floatLumLE ∧ (pyRestsOf l).Sorted floatLumLE) ∧
    ∀ a b : Color, floatLuminance a = floatLuminance b → [a, b] <+ l →
      (isRed a → isRed b → [a, b] <+ pyRedsOf l) ∧
      (isGreen a → isGreen b → [a, b] <+ pyGreensOf l) ∧
      (isBlue a → isBlue b → [a, b] <+ pyBluesOf l) ∧
      (isRest a → isRest b → [a, b] <+ pyRestsOf l) := by
  refine ⟨⟨List.sorted_insertionSort floatLumLE _, List.sorted_insertionSort floatLumLE _,
    List.sorted_insertionSort floatLumLE _, List.sorted_insertionSort floatLumLE _⟩, ?_⟩
  intro a b heq hsub
  have hab : floatLumLE a b := le_of_eq heq
  have key : ∀ p : Color → Bool, p a = true → p b = true →
      [a, b] <+ List.insertionSort floatLumLE (l.filter p) := by
    intro p ha hb
    have h1 : [a, b] = List.filter p [a, b] := by simp [ha, hb]
    have h2 : List.filter p [a, b] <+ l.filter p := List.Sublist.filter p hsub
    exact List.pair_sublist_insertionSort hab (h1 ▸ h2)
  exact ⟨key isRed, key isGreen, key isBlue, key isRest⟩

/-- Witness for C2's amended claim at a two-element input whose red colors
have equal computed keys (they are identical): the sorted red bucket is
key-sorted and the pair keeps its input order. -/
theorem sort_colors_buckets_float_sorted_stable_witness :
    (pyRedsOf [⟨5, 1, 2⟩, ⟨5, 1, 2⟩]).Sorted floatLumLE ∧
    [⟨5, 1, 2⟩, ⟨5, 1, 2⟩] <+ pyRedsOf [⟨5, 1, 2⟩, ⟨5, 1, 2⟩] :=
  ⟨(sort_colors_buckets_float_sorted_stable [⟨5, 1, 2⟩, ⟨5, 1, 2⟩]).1.1,
    ((sort_colors_buckets_float_sorted_stable [⟨5, 1, 2⟩, ⟨5, 1, 2⟩]).2 ⟨5, 1, 2⟩
      ⟨5, 1, 2⟩ rfl (List.Sublist.refl _)).1 (by decide) (by decide)⟩

/-- Counterexample to C2 as stated: the red-dominant colors `(100,50,20)`
and `(89,49,54)` have equal EXACT luminance (both `61.53`), but the program
sorts by the binary64 key, and the two computed keys differ
(`61.53` vs `61.529999999999994`, i.e. `8659577658503332/2^47` vs
`8659577658503331/2^47`); on the input `[(100,50,20), (89,49,54)]` the
bucket sort outputs `[(89,49,54), (100,50,20)]` — an equal-luminance
same-bucket pair that does NOT keep its relative input order. -/
theorem sort_colors_reorders_equal_luminance_pair :
    luminance ⟨100, 50, 20⟩ = luminance ⟨89, 49, 54⟩ ∧
    isRed ⟨100, 50, 20⟩ = true ∧ isRed ⟨89, 49, 54⟩ = true ∧
    floatLuminance ⟨89, 49, 54⟩ < floatLuminance ⟨100, 50, 20⟩ ∧
    pyRedsOf [⟨100, 50, 20⟩, ⟨89, 49, 54⟩] = [⟨89, 49, 54⟩, ⟨100, 50, 20⟩] := by
  have hlt : floatLuminance ⟨89, 49, 54⟩ < floatLuminance ⟨100, 50, 20⟩ := by
    rw [floatLuminance_A, floatLuminance_B]
    norm_num
  refine ⟨?_, by decide, by decide, hlt, ?_⟩
  · unfold luminance
    push_cast
    norm_num
  · have hnot : ¬floatLumLE ⟨100, 50, 20⟩ ⟨89, 49, 54⟩ := not_le_of_lt hlt
    unfold pyRedsOf
    rw [show ([⟨100, 50, 20⟩, ⟨89, 49, 54⟩] : List Color).filter isRed =
      [⟨100, 50, 20⟩, ⟨89, 49, 54⟩] from by decide]
    simp only [List.insertionSort, List.orderedInsert]
    rw [if_neg hnot]

theorem mem_redsOf_isRed {l : List Color} {c : Color} (h : c ∈ redsOf l) :
    isRed c = true := by
  rw [redsOf, List.mem_insertionSort] at h
  exact List.of_mem_filter h

theorem mem_greensOf_isGreen {l : List Color} {c : Color} (h : c ∈ greensOf l) :
    isGreen c = true := by
  rw [greensOf, List.mem_insertionSort] at h
  exact List.of_mem_filter h

theorem mem_bluesOf_isBlue {l : List Color} {c : Color} (h : c ∈ bluesOf l) :
    isBlue c = true := by
  rw [bluesOf, List.mem_insertionSort] at h
  exact List.of_mem_filter h

theorem filter_isRed_sort_colors (l : List Color) :
    (sort_colors l).filter isRed = List.insertionSort lumLE (l.filter isRed) := by
  unfold sort_colors
  rw [List.filter_append, List.filter_append, List.filter_append]
  rw [List.filter_eq_self.mpr (fun c hc => mem_redsOf_isRed hc)]
  rw [List.filter_eq_nil_iff.mpr (fun c hc => by
    have := mem_greensOf_isGreen hc
    simp only [isGreen, Bool.and_eq_true, Bool.not_eq_true'] at this
    simp [this.1])]
  rw [List.filter_eq_nil_iff.mpr (fun c hc => by
    have := mem_bluesOf_isBlue hc
    simp only [isBlue, Bool.and_eq_true, Bool.not_eq_true'] at this
    simp [this.1.1])]
  rw [restsOf_eq_nil]
  simp [redsOf]

theorem filter_isGreen_sort_colors (l : List Color) :
    (sort_colors l).filter isGreen = List.insertionSort lumLE (l.filter isGreen) := by
  unfold sort_colors
  rw [List.filter_append, List.filter_append, List.filter_append]
  rw [List.filter_eq_nil_iff.mpr (fun c hc => by
    have := mem_redsOf_isRed hc
    simp [isGreen, this])]
  rw [List.filter_eq_self.mpr (fun c hc => mem_greensOf_isGreen hc)]
  rw [List.filter_eq_nil_iff.mpr (fun c hc => by
    have := mem_bluesOf_isBlue hc
    simp only [isBlue, Bool.and_eq_true, Bool.not_eq_true'] at this
    simp [isGreen, this.1.2])]
  rw [restsOf_eq_nil]
  simp [greensOf]

theorem filter_isBlue_sort_colors (l : List Color) :
    (sort_colors l).filter isBlue = List.insertionSort lumLE (l.filter isBlue) := by
  unfold sort_colors
  rw [List.filter_append, List.filter_append, List.filter_append]
  rw [List.filter_eq_nil_iff.mpr (fun c hc => by
    have := mem_redsOf_isRed hc
    simp [isBlue, this])]
  rw [List.filter_eq_nil_iff.mpr (fun c hc => by
    have := mem_greensOf_isGreen hc
    simp only [isGreen, Bool.and_eq_true, Bool.not_eq_true'] at this
    simp [isBlue, this.2])]
  rw [List.filter_eq_self.mpr (fun c hc => mem_bluesOf_isBlue hc)]
  rw [restsOf_eq_nil]
  simp [bluesOf]

/-- C7: `sort_colors` is idempotent. -/
theorem sort_colors_idempotent (l : List Color) :
    sort_colors (sort_colors l) = sort_colors l := by
  have hR : redsOf (sort_colors l) = redsOf l := by
    rw [redsOf, filter_isRed_sort_colors]
    exact List.Sorted.insertionSort_eq (List.sorted_insertionSort lumLE _)
  have hG : greensOf (sort_colors l) = greensOf l := by
    rw [greensOf, filter_isGreen_sort_colors]
    exact List.Sorted.insertionSort_eq (List.sorted_insertionSort lumLE _)
  have hB : bluesOf (sort_colors l) = bluesOf l := by
    rw [bluesOf, filter_isBlue_sort_colors]
    exact List.Sorted.insertionSort_eq (List.sorted_insertionSort lumLE _)
  calc sort_colors (sort_colors l)
      = redsOf (sort_colors l) ++ greensOf (sort_colors l) ++ bluesOf (sort_colors l) ++
        restsOf (sort_colors l) := rfl
    _ = redsOf l ++ greensOf l ++ bluesOf l ++ restsOf l := by
        rw [hR, hG, hB, restsOf_eq_nil, restsOf_eq_nil]
    _ = sort_colors l := rfl

theorem countP_pair (l : List ℕ) (i j : ℕ) (hij : i ≠ j) :
    l.countP (fun x => x == i || x == j) = l.count i + l.count j := by
  induction l with
  | nil => simp
  | cons x l ih =>
    simp only [List.countP_cons, List.count_cons, ih, Bool.or_eq_true, beq_iff_eq]
    by_cases hxi : x = i
    · rw [if_pos (Or.inl hxi), if_pos hxi, if_neg (fun hxj => hij (hxi.symm.trans hxj))]
      omega
    · by_cases hxj : x = j
      · rw [if_pos (Or.inr hxj), if_neg hxi, if_pos hxj]
        omega
      · rw [if_neg (fun hor => hor.elim hxi hxj), if_neg hxi, if_neg hxj]
        omega

theorem sum_indicator_range (K x : ℕ) (hx : x < K) :
    ((List.range K).map fun i => if x == i then 1 else 0).sum = 1 := by
  induction K with
  | zero => omega
  | succ K ih =>
    rw [List.range_succ, List.map_append, List.sum_append]
    by_cases h : x = K
    · subst h
      have h1 : ((List.range x).map fun i => if x == i then 1 else 0).sum = 0 :=
        List.sum_eq_zero (fun n hn => by
          obtain ⟨i, hi, rfl⟩ := List.mem_map.mp hn
          have hi' := List.mem_range.mp hi
          have hne : (x == i) = false := beq_eq_false_iff_ne.mpr (by omega)
          simp [hne])
      rw [h1]
      simp
    · have hx' : x < K := by omega
      rw [ih hx']
      have hne : (x == K) = false := beq_eq_false_iff_ne.mpr h
      simp [hne, h]

theorem sum_range_count_eq_length (labels : List ℕ) (K : ℕ)
    (h : ∀ x ∈ labels, x < K) :
    ((List.range K).map fun i => labels.count i).sum = labels.length := by
  induction labels with
  | nil => simp
  | cons x l ih =>
    have hx : x < K := h x (List.mem_cons_self x l)
    have hl : ∀ y ∈ l, y < K := fun y hy => h y (List.mem_cons_of_mem x hy)
    simp only [List.count_cons, List.sum_map_add]
    rw [ih hl, sum_indicator_range K x hx, List.length_cons]

theorem histCounts_of_all_used (labels : List ℕ) (K : ℕ)
    (hlen : labels.dedup.length = K) (hbound : ∀ x ∈ labels, x < K) :
    histCounts labels = (List.range K).map fun i => labels.count i := by
  simp only [histCounts, numDistinct, hlen]
  refine List.map_congr_left fun i hi => ?_
  by_cases h : i + 1 = K
  · rw [if_pos h, countP_pair labels i (i + 1) (by omega)]
    have hzero : labels.count (i + 1) = 0 := List.count_eq_zero.mpr (fun hmem => by
      have := hbound _ hmem
      omega)
    omega
  · rw [if_neg h]

/-- C5 amended: `centerize_histogram` produces one weight per occupied bin,
not per cluster index; when the distinct label values are exactly
`{0, ..., K-1}` (every cluster non-empty) the weights are
`count(label = i) / N` for `i < K`, they sum to 1, and the output has
length `K`.  In particular the 10-pixel example `[0,0,0,1,1,2,2,2,2,2]`
yields `[0.3, 0.2, 0.5]`. -/
theorem centerize_histogram_all_clusters_used (labels : List ℕ) (K : ℕ)
    (hK : labels.dedup ~ List.range K) (hpos : 0 < K) :
    centerize_histogram labels =
      (List.range K).map (fun i => (labels.count i : ℚ) / (labels.length : ℚ)) ∧
    (centerize_histogram labels).sum = 1 ∧
    (centerize_histogram labels).length = K := by
  have hlen : labels.dedup.length = K := by rw [hK.length_eq, List.length_range]
  have hbound : ∀ x ∈ labels, x < K := fun x hx =>
    List.mem_range.mp (hK.mem_iff.mp (List.mem_dedup.mpr hx))
  have hcounts := histCounts_of_all_used labels K hlen hbound
  have hsum : (histCounts labels).sum = labels.length := by
    rw [hcounts]
    exact sum_range_count_eq_length labels K hbound
  have hne : labels ≠ [] := by
    intro h
    rw [h] at hlen
    simp at hlen
    omega
  have hNpos : 0 < labels.length := List.length_pos.mpr hne
  have hNne : ((labels.length : ℕ) : ℚ) ≠ 0 := by
    exact_mod_cast Nat.pos_iff_ne_zero.mp hNpos
  have hmain : centerize_histogram labels =
      (List.range K).map (fun i => (labels.count i : ℚ) / (labels.length : ℚ)) := by
    show (histCounts labels).map
        (fun (k : ℕ) => (k : ℚ) / ((histCounts labels).sum : ℚ)) = _
    simp only [hsum]
    simp only [hcounts, List.map_map]
    rfl
  refine ⟨hmain, ?_, ?_⟩
  · rw [hmain]
    have hfun : (fun i => (labels.count i : ℚ) / (labels.length : ℚ)) =
        fun i => (labels.count i : ℚ) * ((labels.length : ℚ))⁻¹ := by
      funext i
      rw [div_eq_mul_inv]
    rw [hfun, List.sum_map_mul_right]
    have hcomp : (List.range K).map (fun i => ((labels.count i : ℕ) : ℚ)) =
        ((List.range K).map (fun i => labels.count i)).map (fun n : ℕ => (n : ℚ)) := by
      rw [List.map_map]
      rfl
    rw [hcomp, ← Nat.cast_list_sum, sum_range_count_eq_length labels K hbound]
    exact mul_inv_cancel₀ hNne
  · simp [centerize_histogram, histCounts, numDistinct, hlen]

/-- Witness for C5 at the spec's 10-pixel example: labels
`[0,0,0,1,1,2,2,2,2,2]` give weights `[0.3, 0.2, 0.5]` summing to 1. -/
theorem centerize_histogram_all_clusters_used_witness :
    centerize_histogram [0, 0, 0, 1, 1, 2, 2, 2, 2, 2] =
      [(3 : ℚ) / 10, 2 / 10, 5 / 10] ∧
    (centerize_histogram [0, 0, 0, 1, 1, 2, 2, 2, 2, 2]).sum = 1 := by
  have h := centerize_histogram_all_clusters_used [0, 0, 0, 1, 1, 2, 2, 2, 2, 2] 3
    (List.Perm.of_eq (by decide)) (by decide)
  refine ⟨?_, h.2.1⟩
  rw [h.1]
  have r3 : List.range 3 = [0, 1, 2] := by decide
  have c0 : List.count 0 [0, 0, 0, 1, 1, 2, 2, 2, 2, 2] = 3 := by decide
  have c1 : List.count 1 [0, 0, 0, 1, 1, 2, 2, 2, 2, 2] = 2 := by decide
  have c2 : List.count 2 [0, 0, 0, 1, 1, 2, 2, 2, 2, 2] = 5 := by decide
  have hlen : ([0, 0, 0, 1, 1, 2, 2, 2, 2, 2] : List ℕ).length = 10 := by decide
  rw [r3, List.map_cons, List.map_cons, List.map_cons, List.map_nil,
    c0, c1, c2, hlen]
  norm_num

/-- Counterexample to C5 as stated: for the label array `[0, 0, 2]` (with
`K = 3` clusters), the code returns the 2-element vector `[2/3, 1/3]` — one
weight per histogram bin over `len(np.unique(labels)) = 2` bins — not one
weight per cluster index; cluster 1 does not get weight 0 and the claimed
3-element vector `[2/3, 0, 1/3]` is not produced. -/
theorem centerize_histogram_not_per_cluster :
    centerize_histogram [0, 0, 2] = [(2 : ℚ) / 3, 1 / 3] ∧
    (centerize_histogram [0, 0, 2]).length = 2 ∧
    centerize_histogram [0, 0, 2] ≠ [(2 : ℚ) / 3, 0, 1 / 3] := by
  have h1 : histCounts [0, 0, 2] = [2, 1] := by decide
  have h2 : centerize_histogram [0, 0, 2] = [(2 : ℚ) / 3, 1 / 3] := by
    show (histCounts [0, 0, 2]).map
        (fun (k : ℕ) => (k : ℚ) / ((histCounts [0, 0, 2]).sum : ℚ)) = _
    rw [h1]
    norm_num
  refine ⟨h2, by rw [h2]; rfl, ?_⟩
  rw [h2]
  intro hbad
  have : ([(2 : ℚ) / 3, 1 / 3] : List ℚ).length = ([(2 : ℚ) / 3, 0, 1 / 3] : List ℚ).length :=
    congrArg List.length hbad
  simp at this

/-- C6: for every unique-count `u`, the selected cluster count equals
`min (5 + u / 6) 24`, lies in `[5, 24]`, and the guard `raw < 2` never
fires (dead branch), since `5 + u / 6 ≥ 5` always. -/
theorem clustersNum_spec (u : ℕ) :
    clustersNum u = min (5 + u / 6) 24 ∧
    5 ≤ clustersNum u ∧ clustersNum u ≤ 24 ∧ ¬(5 + u / 6 < 2) := by
  unfold clustersNum
  simp only []
  split
  · omega
  · split <;> omega

/-- Witness for C6 at `u = 30`: the selected count is `min 10 24 = 10` and
the dead-branch condition is false there. -/
theorem clustersNum_spec_witness :
    clustersNum 30 = min (5 + 30 / 6) 24 ∧
    5 ≤ clustersNum 30 ∧ clustersNum 30 ≤ 24 ∧ ¬(5 + 30 / 6 < 2) :=
  clustersNum_spec 30

theorem map_snd_zip_eq_map_take {α β γ : Type} (f : β → γ) :
    ∀ (a : List α) (b : List β),
      ((a.zip b).map fun p => f p.2) = (b.take a.length).map f
  | [], _ => by simp
  | _ :: _, [] => by simp
  | q :: a, c :: b => by
    simp only [List.zip_cons_cons, List.map_cons, List.length_cons, List.take_succ_cons]
    rw [map_snd_zip_eq_map_take f a b]

theorem extract_colors_ok_eq {ε : Type} (kmeans : List Color → ℕ → Except ε ClusterResult)
    (image : List (List Color)) (centers : List Centroid) (labels : List ℕ)
    (hk : kmeans image.flatten (requestedK image) = .ok ⟨centers, labels⟩) :
    extract_colors kmeans image =
      .ok (sort_colors
        ((centers.take (centerize_histogram labels).length).map pyColor)) := by
  unfold extract_colors
  rw [hk]
  show Except.ok (sort_colors
      (((centerize_histogram labels).zip centers).map fun p => pyColor p.2)) = _
  rw [map_snd_zip_eq_map_take pyColor (centerize_histogram labels) centers]

theorem centerize_histogram_length (labels : List ℕ) :
    (centerize_histogram labels).length = labels.dedup.length := by
  show ((histCounts labels).map _).length = _
  simp [histCounts, numDistinct]

theorem dedup_length_le_of_bound (labels : List ℕ) (K : ℕ)
    (hb : ∀ x ∈ labels, x < K) : labels.dedup.length ≤ K := by
  have hsub : labels.dedup ⊆ List.range K := fun x hx =>
    List.mem_range.mpr (hb x (List.mem_dedup.mp hx))
  have h := (labels.nodup_dedup.subperm hsub).length_le
  simpa using h

/-- C10: `centerize_histogram` returns one weight per distinct label value
(`L = labels.dedup.length`, not one per cluster), `L ≤ K`, and
`extract_colors` zips the `L` weights positionally with the `K` centers, so
the palette is exactly the first `L` of the `K` cluster centers, truncated
to integers and sorted — the trailing `K - L` centers are silently dropped
regardless of which cluster indices were unused. -/
theorem extract_colors_drops_trailing_centers {ε : Type}
    (kmeans : List Color → ℕ → Except ε ClusterResult)
    (image : List (List Color)) (centers : List Centroid) (labels : List ℕ)
    (hk : kmeans image.flatten (requestedK image) = .ok ⟨centers, labels⟩)
    (hb : ∀ x ∈ labels, x < centers.length) :
    (centerize_histogram labels).length = labels.dedup.length ∧
    labels.dedup.length ≤ centers.length ∧
    extract_colors kmeans image =
      .ok (sort_colors ((centers.take labels.dedup.length).map pyColor)) := by
  refine ⟨centerize_histogram_length labels,
    dedup_length_le_of_bound labels centers.length hb, ?_⟩
  rw [extract_colors_ok_eq kmeans image centers labels hk,
    centerize_histogram_length]

/-- Witness for C10: with five centers but labels using only clusters 0 and
1, the palette keeps exactly the first two centers; the weight vector has
length 2. -/
theorem extract_colors_drops_trailing_centers_witness :
    extract_colors dropKMeans [[⟨7, 7, 7⟩]] = .ok [⟨10, 0, 0⟩, ⟨0, 10, 0⟩] ∧
    (centerize_histogram [0, 0, 1]).length = 2 := by
  have h := extract_colors_drops_trailing_centers dropKMeans [[⟨7, 7, 7⟩]]
    [⟨10, 0, 0⟩, ⟨0, 10, 0⟩, ⟨0, 0, 10⟩, ⟨1, 2, 3⟩, ⟨9, 9, 9⟩] [0, 0, 1] rfl
    (by decide)
  refine ⟨?_, ?_⟩
  · rw [h.2.2]
    exact congrArg Except.ok (by decide)
  · rw [h.1]
    decide

/-- C4 corrected: the palette length equals the number `L` of distinct
cluster labels, which is at most `K` but need not equal it; for the
solid-color image (all pixels `(200,100,50)`, `K = 5`) where clustering
assigns every pixel one label, the output has length 1, not 5. -/
theorem extract_colors_length_eq_distinct_labels {ε : Type}
    (kmeans : List Color → ℕ → Except ε ClusterResult)
    (image : List (List Color)) (centers : List Centroid) (labels : List ℕ)
    (hk : kmeans image.flatten (requestedK image) = .ok ⟨centers, labels⟩)
    (hb : ∀ x ∈ labels, x < centers.length) :
    ∃ p, extract_colors kmeans image = .ok p ∧
      p.length = labels.dedup.length ∧ labels.dedup.length ≤ centers.length := by
  refine ⟨_, extract_colors_ok_eq kmeans image centers labels hk, ?_,
    dedup_length_le_of_bound labels centers.length hb⟩
  rw [(sort_colors_perm _).length_eq, List.length_map, List.length_take,
    centerize_histogram_length]
  exact min_eq_left (dedup_length_le_of_bound labels centers.length hb)

/-- Witness for C4's amended claim: on the solid-color image with the
degenerate clustering result, the palette exists and has length 1, the
number of distinct labels. -/
theorem extract_colors_length_eq_distinct_labels_witness :
    ∃ p, extract_colors solidKMeans solidImage = Except.ok p ∧ p.length = 1 := by
  obtain ⟨p, hp, hlen, -⟩ := extract_colors_length_eq_distinct_labels solidKMeans
    solidImage (List.replicate 5 ⟨200, 100, 50⟩) (List.replicate 5 0) rfl (by decide)
  refine ⟨p, hp, ?_⟩
  rw [hlen]
  decide

/-- Counterexample to C4 as stated: on the 5-pixel solid-color
image the requested cluster count is 5, yet the palette is the single color
`(200,100,50)` — length 1, not `K = 5`: the claim "length exactly K" fails. -/
theorem extract_colors_solid_image_length_one :
    extract_colors solidKMeans solidImage = .ok [⟨200, 100, 50⟩] ∧
    requestedK solidImage = 5 ∧
    ([(⟨200, 100, 50⟩ : Color)] : List Color).length ≠ 5 := by
  have h := extract_colors_ok_eq solidKMeans solidImage
    (List.replicate 5 ⟨200, 100, 50⟩) (List.replicate 5 0) rfl
  refine ⟨?_, by decide, by decide⟩
  rw [h]
  exact congrArg Except.ok (by decide)

/-- C9 amended: the code contains no error handling and defines no error
kinds; any exception raised by the external clusterer — including sklearn's
`ValueError` on a zero-pixel input — propagates through `extract_colors`
unchanged, so the caller sees the raw library error, not an `InvalidInput`
or `ClusteringFailed` classification. -/
theorem extract_colors_propagates_cluster_error {ε : Type}
    (kmeans : List Color → ℕ → Except ε ClusterResult)
    (image : List (List Color)) (e : ε)
    (hk : kmeans image.flatten (requestedK image) = .error e) :
    extract_colors kmeans image = .error e := by
  unfold extract_colors
  rw [hk]

/-- Witness for C9's amended claim: a clusterer failing on the empty pixel
array of a zero-row image makes `extract_colors` fail with that same error. -/
theorem extract_colors_propagates_cluster_error_witness :
    extract_colors failKMeans [[], []] = .error 0 :=
  extract_colors_propagates_cluster_error failKMeans [[], []] 0 rfl

/-- Counterexample to C9 as stated: on the zero-pixel image `[]` the
pipeline surfaces exactly the clusterer's own raw exception (error code 0,
standing for sklearn's `ValueError` text) — an unclassified error, not an
`InvalidInput` error kind — and a mid-pipeline clustering failure (code 1,
standing for a convergence error) likewise surfaces raw rather than as a
`ClusteringFailed` kind: no reclassification of either failure exists in
the code. -/
theorem extract_colors_error_unclassified :
    extract_colors failKMeans [] = .error 0 ∧
    extract_colors (fun _ _ => Except.error 1) [[⟨1, 2, 3⟩]] = .error 1 :=
  ⟨rfl, rfl⟩

/-- C8 amended: the conversion at source line 129 is Python `int()`, which
truncates toward zero — for the non-negative channels of k-means centroids
over pixel data this is the floor, not rounding to the nearest integer. -/
theorem pyColor_truncates_toward_zero (ctr : Centroid)
    (hr : 0 ≤ ctr.r) (hg : 0 ≤ ctr.g) (hb : 0 ≤ ctr.b) :
    pyColor ctr = ⟨⌊ctr.r⌋, ⌊ctr.g⌋, ⌊ctr.b⌋⟩ ∧
    ((⌊ctr.r⌋ : ℚ) ≤ ctr.r ∧ ctr.r < ⌊ctr.r⌋ + 1) := by
  constructor
  · unfold pyColor pyInt
    rw [if_pos hr, if_pos hg, if_pos hb]
  · exact ⟨Int.floor_le ctr.r, Int.lt_floor_add_one ctr.r⟩

/-- Witness for C8's amended claim at the centroid `(200, 100.7, 50)`: the
channels are floored, giving `(200, 100, 50)`. -/
theorem pyColor_truncates_toward_zero_witness :
    pyColor ⟨200, 100.7, 50⟩ = ⟨200, 100, 50⟩ := by
  have h := pyColor_truncates_toward_zero ⟨200, 100.7, 50⟩
    (by norm_num) (by norm_num) (by norm_num)
  rw [h.1]
  show (⟨⌊(200 : ℚ)⌋, ⌊(100.7 : ℚ)⌋, ⌊(50 : ℚ)⌋⟩ : Color) = _
  have h1 : ⌊(200 : ℚ)⌋ = 200 := by
    rw [Int.floor_eq_iff]; norm_num
  have h2 : ⌊(100.7 : ℚ)⌋ = 100 := by
    rw [Int.floor_eq_iff]; norm_num
  have h3 : ⌊(50 : ℚ)⌋ = 50 := by
    rw [Int.floor_eq_iff]; norm_num
  rw [h1, h2, h3]

/-- Counterexample to C8 as stated: for the cluster center `(200, 100.7, 50)`
the pipeline outputs the color `(200, 100, 50)` (the `int()` truncation),
while rounding each channel to the nearest integer would give
`(200, 101, 50)`; the two disagree. -/
theorem extract_colors_not_round_to_nearest :
    extract_colors fracKMeans [[⟨1, 2, 3⟩]] = .ok [⟨200, 100, 50⟩] ∧
    specRoundColor ⟨200, 100.7, 50⟩ = ⟨200, 101, 50⟩ ∧
    pyColor ⟨200, 100.7, 50⟩ ≠ specRoundColor ⟨200, 100.7, 50⟩ := by
  have hfloor : ⌊(100.7 : ℚ)⌋ = 100 := by
    rw [Int.floor_eq_iff]; norm_num
  have hpy : pyColor ⟨200, 100.7, 50⟩ = ⟨200, 100, 50⟩ := by
    unfold pyColor pyInt
    rw [if_pos (by norm_num : (0 : ℚ) ≤ 200),
      if_pos (by norm_num : (0 : ℚ) ≤ 100.7),
      if_pos (by norm_num : (0 : ℚ) ≤ 50), hfloor]
    have h1 : ⌊(200 : ℚ)⌋ = 200 := by
      rw [Int.floor_eq_iff]; norm_num
    have h3 : ⌊(50 : ℚ)⌋ = 50 := by
      rw [Int.floor_eq_iff]; norm_num
    rw [h1, h3]
  have hround : specRoundColor ⟨200, 100.7, 50⟩ = ⟨200, 101, 50⟩ := by
    show (⟨round (200 : ℚ), round (100.7 : ℚ), round (50 : ℚ)⟩ : Color) = _
    have h1 : round (200 : ℚ) = 200 := by
      rw [round_eq, Int.floor_eq_iff]; norm_num
    have h2 : round (100.7 : ℚ) = 101 := by
      rw [round_eq, Int.floor_eq_iff]; norm_num
    have h3 : round (50 : ℚ) = 50 := by
      rw [round_eq, Int.floor_eq_iff]; norm_num
    rw [h1, h2, h3]
  refine ⟨?_, hround, ?_⟩
  · have h := extract_colors_ok_eq fracKMeans [[⟨1, 2, 3⟩]]
      [⟨200, 100.7, 50⟩] [0] rfl
    rw [h]
    have hlen : (centerize_histogram [0]).length = 1 := by
      rw [centerize_histogram_length]
      decide
    rw [hlen]
    have htake : (([⟨200, 100.7, 50⟩] : List Centroid).take 1).map pyColor =
        [pyColor ⟨200, 100.7, 50⟩] := rfl
    rw [htake, hpy]
    exact congrArg Except.ok (by decide)
  · rw [hpy, hround]
    intro hbad
    have : (100 : ℤ) = 101 := congrArg Color.g hbad
    omega

/-- C3: the code computes `U` as `len(np.unique(image, axis=0))`, the number
of distinct image ROWS, not the number of distinct pixel colors.  On the
one-row image holding six distinct colors it requests `K = 5` clusters
(`U = 1` row), while the claimed formula over the six distinct colors gives
`clamp(5 + 6 // 6, 5, 24) = 6`; rearranging the same six pixels as six
one-pixel rows changes the request to 6, so the count is not independent of
the arrangement of pixels into rows.  The clusterer is indeed invoked with
the row-derived count (final conjunct). -/
theorem requestedK_counts_rows_not_colors :
    requestedK rowImage = 5 ∧
    distinctColors rowImage = 6 ∧
    clustersNum 6 = 6 ∧
    requestedK colImage = 6 ∧
    rowImage.flatten = colImage.flatten ∧
    extract_colors (fun _ k => Except.error k) rowImage = .error 5 := by
  exact ⟨by decide, by decide, by decide, by decide, by decide, rfl⟩

end ColorHunter
